import Mathlib

/-!
Verification of the KLE layout interpreter and placement-derivation engine
of `case/compounds/plate.py`: the rotation helper `_rot2d`, the cursor
state machine `parse_kle` with its nested `flush_key`, the bounding-box
computation `_keys_bounds`, and the stabilizer eligibility rule inside
`build_plate_from_kle` (together with the cutout placement composition it
performs with `StabilizerScheme.draw_cutout`).

Python floats are modelled as real numbers; the outcome of
`_kle_to_json_str` + `json.loads` is modelled as an `Option JVal`
(`none` = the text does not parse, `some v` = the parsed value).
-/

/-- Output record of the interpreter (`KleKey` in `plate.py`): center and
size in linear units (mm), rotation angle in degrees. -/
structure KleKey where
  center : ℝ × ℝ
  size : ℝ × ℝ
  angle_deg : ℝ

/-- The two error kinds of the engine (both are `ValueError` in the Python
source; the spec names them `MalformedLayout` and `NoKeys`). -/
inductive KleError where
  | malformedLayout (msg : String)
  | noKeys

/-- `_rot2d` from `plate.py`: rotate `(x, y)` by `deg` degrees about
`(ox, oy)`; `deg == 0` takes the exact non-trigonometric fast path, and
otherwise `math.radians(deg) = deg * pi / 180` feeds the standard 2-D
rotation formula. -/
noncomputable def rot2d (x y deg ox oy : ℝ) : ℝ × ℝ :=
  if deg = 0 then (x, y)
  else
    (ox + (x - ox) * Real.cos (deg * Real.pi / 180) - (y - oy) * Real.sin (deg * Real.pi / 180),
     oy + (x - ox) * Real.sin (deg * Real.pi / 180) + (y - oy) * Real.cos (deg * Real.pi / 180))

/-- Interpreter state of `parse_kle`: the mutable locals `cur_x, cur_y`
(cursor), `cur_w, cur_h` (pending key size), `rot_deg, rot_x, rot_y`
(rotation group). -/
structure PState where
  cur_x : ℝ
  cur_y : ℝ
  cur_w : ℝ
  cur_h : ℝ
  rot_deg : ℝ
  rot_x : ℝ
  rot_y : ℝ

/-- The state `parse_kle` seeds once per document. -/
noncomputable def initState : PState :=
  { cur_x := 0, cur_y := 0, cur_w := 1, cur_h := 1, rot_deg := 0, rot_x := 0, rot_y := 0 }

/-- JSON-like values produced by `json.loads` on the normalised fragment.
JSON `true`/`false` become Python `bool`, a subclass of `int`, so they pass
the scalar check `isinstance(token, (str, int, float))`; JSON `null`
becomes `None`, which passes no check.  Object fields are modelled with
numeric values, matching the format's data model (modifier fields are
floating-point values); JSON objects have unique keys, so an association
list looked up by first match is a faithful rendering of a `dict`. -/
inductive JVal where
  | str (s : String)
  | num (v : ℝ)
  | bool (b : Bool)
  | null
  | arr (items : List JVal)
  | obj (fields : List (String × ℝ))

/-- Dictionary access `token[key]` guarded by `key in token`. -/
def findField (fields : List (String × ℝ)) (key : String) : Option ℝ :=
  match fields with
  | [] => none
  | (k, v) :: rest => if k = key then some v else findField rest key

/-- Modifier-record handling of `parse_kle` (the `isinstance(token, dict)`
branch): each recognised field present updates the state in the source's
fixed order `x, y, w, h, r, rx, ry`; all other fields are ignored. -/
noncomputable def applyMod (fields : List (String × ℝ)) (s : PState) : PState :=
  let s1 := match findField fields "x" with
    | some v => { s with cur_x := s.cur_x + v }
    | none => s
  let s2 := match findField fields "y" with
    | some v => { s1 with cur_y := s1.cur_y + v }
    | none => s1
  let s3 := match findField fields "w" with
    | some v => { s2 with cur_w := v }
    | none => s2
  let s4 := match findField fields "h" with
    | some v => { s3 with cur_h := v }
    | none => s3
  let s5 := match findField fields "r" with
    | some v => { s4 with rot_deg := v }
    | none => s4
  let s6 := match findField fields "rx" with
    | some v => { s5 with rot_x := v }
    | none => s5
  match findField fields "ry" with
    | some v => { s6 with rot_y := v }
    | none => s6

/-- `flush_key` from `parse_kle`: compute the grid-unit center, rotate it
about the rotation-group origin, convert to mm flipping Y, record the
placement, advance the cursor by the pending width, and reset the pending
size to `(1, 1)`.  Returns the appended key together with the new state. -/
noncomputable def flush_key (unit : ℝ) (s : PState) : KleKey × PState :=
  ({ center :=
       ((rot2d (s.cur_x + s.cur_w / 2) (s.cur_y + s.cur_h / 2) s.rot_deg s.rot_x s.rot_y).1 * unit,
        -(rot2d (s.cur_x + s.cur_w / 2) (s.cur_y + s.cur_h / 2) s.rot_deg s.rot_x s.rot_y).2 * unit),
     size := (s.cur_w * unit, s.cur_h * unit),
     angle_deg := s.rot_deg },
   { s with cur_x := s.cur_x + s.cur_w, cur_w := 1, cur_h := 1 })

/-- One token of the inner loop of `parse_kle`: a `dict` applies modifiers,
a `str`/`int`/`float` (including `bool`) flushes a key, anything else
raises `ValueError("Unsupported KLE token type: ...")`. -/
noncomputable def parseToken (unit : ℝ) (s : PState) (acc : List KleKey) :
    JVal → Except KleError (PState × List KleKey)
  | .obj fields => .ok (applyMod fields s, acc)
  | .str _ => .ok ((flush_key unit s).2, acc ++ [(flush_key unit s).1])
  | .num _ => .ok ((flush_key unit s).2, acc ++ [(flush_key unit s).1])
  | .bool _ => .ok ((flush_key unit s).2, acc ++ [(flush_key unit s).1])
  | .null => .error (.malformedLayout "Unsupported KLE token type")
  | .arr _ => .error (.malformedLayout "Unsupported KLE token type")

/-- The inner token loop of `parse_kle` over one row. -/
noncomputable def parseTokens (unit : ℝ) :
    PState → List KleKey → List JVal → Except KleError (PState × List KleKey)
  | s, acc, [] => .ok (s, acc)
  | s, acc, t :: ts =>
    match parseToken unit s acc t with
    | .ok (s', acc') => parseTokens unit s' acc' ts
    | .error e => .error e

/-- The outer row loop of `parse_kle`: a non-list row raises
`ValueError("Each row must be a JSON array")`; otherwise `cur_x` is reset
to 0, the row's tokens run, and `cur_y` advances by 1 after the row. -/
noncomputable def parseRows (unit : ℝ) :
    PState → List KleKey → List JVal → Except KleError (PState × List KleKey)
  | s, acc, [] => .ok (s, acc)
  | s, acc, r :: rs =>
    match r with
    | .arr toks =>
      match parseTokens unit { s with cur_x := 0 } acc toks with
      | .ok (s', acc') => parseRows unit { s' with cur_y := s'.cur_y + 1 } acc' rs
      | .error e => .error e
    | _ => .error (.malformedLayout "Each row must be a JSON array")

/-- `parse_kle` from `plate.py`.  The `Option JVal` input models the result
of `json.loads(_kle_to_json_str(kle))`: `none` when the normalised text
does not parse (a `json.JSONDecodeError`, a `ValueError` subclass), `some`
of the parsed value otherwise.  A non-list top level raises
`ValueError("KLE data must be a JSON array (rows)")`. -/
noncomputable def parse_kle (unit : ℝ) : Option JVal → Except KleError (List KleKey)
  | none => .error (.malformedLayout "KLE text does not parse as JSON")
  | some (.arr rows) =>
    match parseRows unit initState [] rows with
    | .ok (_, ks) => .ok ks
    | .error e => .error e
  | some _ => .error (.malformedLayout "KLE data must be a JSON array (rows)")

/-- The scalar check of `parse_kle`: `isinstance(token, (str, int, float))`;
Python `bool` is a subclass of `int`, so booleans pass. -/
def isScalarTok : JVal → Bool
  | .str _ => true
  | .num _ => true
  | .bool _ => true
  | _ => false

/-- Tokens the interpreter consumes without raising: modifier records and
accepted scalars. -/
def goodToken : JVal → Bool
  | .obj _ => true
  | t => isScalarTok t

/-- A well-formed row: a list all of whose tokens are accepted. -/
def rowWF : JVal → Bool
  | .arr toks => toks.all goodToken
  | _ => false

/-- A well-formed document body: every row is a list of accepted tokens. -/
def rowsWF (rows : List JVal) : Bool :=
  rows.all rowWF

/-- Number of scalar tokens in one row (0 for a non-list row). -/
def scalarCountRow : JVal → ℕ
  | .arr toks => toks.countP (fun t => isScalarTok t)
  | _ => 0

/-- Number of scalar tokens in a document body. -/
def scalarCount (rows : List JVal) : ℕ :=
  (rows.map scalarCountRow).sum

/-- Full-input well-formedness: the text parses, the top level is a list,
and every row is a list of accepted tokens. -/
def docOk : Option JVal → Bool
  | some (.arr rows) => rowsWF rows
  | _ => false

/-- Number of scalar tokens in a full input (0 when malformed). -/
def docScalarCount : Option JVal → ℕ
  | some (.arr rows) => scalarCount rows
  | _ => 0

/-- The four unrotated corners `center ± size/2` of a key, in the order
the source lists them. -/
noncomputable def keyCorners (k : KleKey) : List (ℝ × ℝ) :=
  [(k.center.1 - k.size.1 / 2, k.center.2 - k.size.2 / 2),
   (k.center.1 + k.size.1 / 2, k.center.2 - k.size.2 / 2),
   (k.center.1 + k.size.1 / 2, k.center.2 + k.size.2 / 2),
   (k.center.1 - k.size.1 / 2, k.center.2 + k.size.2 / 2)]

/-- A corner rotated about the key's own center by the key's own angle. -/
noncomputable def rotCorner (k : KleKey) (p : ℝ × ℝ) : ℝ × ℝ :=
  rot2d p.1 p.2 k.angle_deg k.center.1 k.center.2

/-- All rotated corners of all keys, in traversal order (the `xs`/`ys`
accumulation of `_keys_bounds`). -/
noncomputable def allRotCorners (keys : List KleKey) : List (ℝ × ℝ) :=
  keys.flatMap (fun k => (keyCorners k).map (rotCorner k))

/-- Python's `min` over a non-empty list (the `[]` case is never reached
under `_keys_bounds`'s emptiness guard). -/
noncomputable def listMin : List ℝ → ℝ
  | [] => 0
  | x :: xs => xs.foldl min x

/-- Python's `max` over a non-empty list. -/
noncomputable def listMax : List ℝ → ℝ
  | [] => 0
  | x :: xs => xs.foldl max x

/-- `_keys_bounds` from `plate.py`: fold every rotated corner into running
per-axis min/max; an empty corner list raises
`ValueError("No keys found in KLE data")`. -/
noncomputable def keys_bounds (keys : List KleKey) : Except KleError (ℝ × ℝ × ℝ × ℝ) :=
  if allRotCorners keys = [] then .error .noKeys
  else
    .ok (listMin ((allRotCorners keys).map Prod.fst),
         listMin ((allRotCorners keys).map Prod.snd),
         listMax ((allRotCorners keys).map Prod.fst),
         listMax ((allRotCorners keys).map Prod.snd))

/-- The stabilizer branch of `build_plate_from_kle` (lines 258-263): with
`w_u = size.x/unit`, `h_u = size.y/unit`, `long_u = max w_u h_u`, a cutout
is drawn exactly when `long_u > thr` (the scheme's `min_u_exclusive`), with
`axis_rot = 0` if `w_u >= h_u` else `90`.  Returns the `axis_rot` of the
drawn cutout, or `none` when no cutout is drawn. -/
noncomputable def stabDecision (k : KleKey) (unit thr : ℝ) : Option ℝ :=
  if max (k.size.1 / unit) (k.size.2 / unit) > thr then
    some (if k.size.1 / unit ≥ k.size.2 / unit then 0 else 90)
  else none

/-- Where a stabilizer-template point `(px, py)` ends up under the code's
composition `Location((0,0,0), (0,0,axisRot)) * (Location((lx,ly,0)) *
template)` (`draw_cutout` translates the template to `(lx, ly)`, then the
plate code rotates the placed sketch about the global origin). -/
noncomputable def codeStabPoint (axisRot lx ly px py : ℝ) : ℝ × ℝ :=
  rot2d (px + lx) (py + ly) axisRot 0 0

/-- Modelled from the spec: "the secondary-cutout generator is expected to
rotate its template by this amount before placing it at the given
coordinates" — rotate the template point about the template's own origin,
then translate to `(lx, ly)`. -/
noncomputable def specStabPoint (axisRot lx ly px py : ℝ) : ℝ × ℝ :=
  ((rot2d px py axisRot 0 0).1 + lx, (rot2d px py axisRot 0 0).2 + ly)

/-- The Unit & Orientation Converter as the spec states it (spec section
4.3, for refinement comparison with `flush_key`): center x scales, center
y scales and negates, size scales on both axes, angle passes through. -/
noncomputable def unitConvertSpec (scale : ℝ) (c sz : ℝ × ℝ) (ang : ℝ) : KleKey :=
  { center := (c.1 * scale, -(c.2 * scale)),
    size := (sz.1 * scale, sz.2 * scale),
    angle_deg := ang }

/-- The standard 2-D rotation of `p` about `o` by `deg` degrees, with no
fast path: the yardstick for the rotation claims. -/
noncomputable def specRot (p o : ℝ × ℝ) (deg : ℝ) : ℝ × ℝ :=
  (o.1 + (p.1 - o.1) * Real.cos (deg * Real.pi / 180) - (p.2 - o.2) * Real.sin (deg * Real.pi / 180),
   o.2 + (p.1 - o.1) * Real.sin (deg * Real.pi / 180) + (p.2 - o.2) * Real.cos (deg * Real.pi / 180))

/-- The placement a scalar token is specified to emit: grid-unit center
`(cursor.x + pending_w/2, cursor.y + pending_h/2)` rotated about the
rotation-group origin by the rotation-group angle via the standard 2-D
rotation (no fast path), then converted to mm with the Y flip; size is
the unrotated pending size scaled; `angle_deg` is the group angle. -/
noncomputable def specEmittedKey (unit : ℝ) (s : PState) : KleKey :=
  { center :=
      ((specRot (s.cur_x + s.cur_w / 2, s.cur_y + s.cur_h / 2) (s.rot_x, s.rot_y) s.rot_deg).1 * unit,
       -(specRot (s.cur_x + s.cur_w / 2, s.cur_y + s.cur_h / 2) (s.rot_x, s.rot_y) s.rot_deg).2 * unit),
    size := (s.cur_w * unit, s.cur_h * unit),
    angle_deg := s.rot_deg }

lemma rot2d_zero (x y ox oy : ℝ) : rot2d x y 0 ox oy = (x, y) :=
  if_pos rfl

lemma rot2d_eq_specRot (x y deg ox oy : ℝ) :
    rot2d x y deg ox oy = specRot (x, y) (ox, oy) deg := by
  by_cases h : deg = 0
  · subst h
    rw [rot2d, if_pos rfl, specRot]
    have h0 : (0 : ℝ) * Real.pi / 180 = 0 := by ring
    rw [h0, Real.cos_zero, Real.sin_zero]
    simp only [Prod.mk.injEq]
    constructor <;> ring
  · rw [rot2d, if_neg h, specRot]

lemma rot2d_ninety (x y ox oy : ℝ) :
    rot2d x y 90 ox oy = (ox - (y - oy), oy + (x - ox)) := by
  rw [rot2d, if_neg (by norm_num)]
  have h : (90 : ℝ) * Real.pi / 180 = Real.pi / 2 := by ring
  rw [h, Real.cos_pi_div_two, Real.sin_pi_div_two]
  simp only [Prod.mk.injEq]
  constructor <;> ring

lemma parseTokens_acc (unit : ℝ) (ts : List JVal) :
    ∀ (s : PState) (acc : List KleKey),
      parseTokens unit s acc ts =
        Except.map (fun r => (r.1, acc ++ r.2)) (parseTokens unit s [] ts) := by
  induction ts with
  | nil => intro s acc; simp [parseTokens, Except.map]
  | cons t ts ih =>
    intro s acc
    cases t with
    | obj fields =>
      simp only [parseTokens, parseToken]
      exact ih _ acc
    | str lbl =>
      simp only [parseTokens, parseToken, List.nil_append]
      rw [ih _ (acc ++ [(flush_key unit s).1]), ih _ [(flush_key unit s).1]]
      cases parseTokens unit (flush_key unit s).2 [] ts with
      | ok r => simp [Except.map, List.append_assoc]
      | error e => simp [Except.map]
    | num v =>
      simp only [parseTokens, parseToken, List.nil_append]
      rw [ih _ (acc ++ [(flush_key unit s).1]), ih _ [(flush_key unit s).1]]
      cases parseTokens unit (flush_key unit s).2 [] ts with
      | ok r => simp [Except.map, List.append_assoc]
      | error e => simp [Except.map]
    | bool b =>
      simp only [parseTokens, parseToken, List.nil_append]
      rw [ih _ (acc ++ [(flush_key unit s).1]), ih _ [(flush_key unit s).1]]
      cases parseTokens unit (flush_key unit s).2 [] ts with
      | ok r => simp [Except.map, List.append_assoc]
      | error e => simp [Except.map]
    | null => simp [parseTokens, parseToken, Except.map]
    | arr items => simp [parseTokens, parseToken, Except.map]

lemma parseRows_acc (unit : ℝ) (rows : List JVal) :
    ∀ (s : PState) (acc : List KleKey),
      parseRows unit s acc rows =
        Except.map (fun r => (r.1, acc ++ r.2)) (parseRows unit s [] rows) := by
  induction rows with
  | nil => intro s acc; simp [parseRows, Except.map]
  | cons r rs ih =>
    intro s acc
    cases r with
    | arr toks =>
      simp only [parseRows]
      rw [parseTokens_acc unit toks _ acc]
      cases h : parseTokens unit { s with cur_x := 0 } [] toks with
      | ok p =>
        simp only [Except.map]
        rw [ih _ (acc ++ p.2), ih _ p.2]
        cases parseRows unit { p.1 with cur_y := p.1.cur_y + 1 } [] rs with
        | ok q => simp [Except.map, List.append_assoc]
        | error e => simp [Except.map]
      | error e => simp [Except.map]
    | str v => simp [parseRows, Except.map]
    | num v => simp [parseRows, Except.map]
    | bool b => simp [parseRows, Except.map]
    | null => simp [parseRows, Except.map]
    | obj fields => simp [parseRows, Except.map]

lemma parseTokens_append (unit : ℝ) (ts1 ts2 : List JVal) :
    ∀ (s : PState) (acc : List KleKey),
      parseTokens unit s acc (ts1 ++ ts2) =
        match parseTokens unit s acc ts1 with
        | .ok (s', acc') => parseTokens unit s' acc' ts2
        | .error e => .error e := by
  induction ts1 with
  | nil => intro s acc; simp [parseTokens]
  | cons t ts ih =>
    intro s acc
    cases ht : parseToken unit s acc t with
    | ok p =>
      obtain ⟨s1, acc1⟩ := p
      simp only [List.cons_append, parseTokens, ht]
      exact ih s1 acc1
    | error e => simp only [List.cons_append, parseTokens, ht]

lemma parseRows_append (unit : ℝ) (rs1 rs2 : List JVal) :
    ∀ (s : PState) (acc : List KleKey),
      parseRows unit s acc (rs1 ++ rs2) =
        match parseRows unit s acc rs1 with
        | .ok (s', acc') => parseRows unit s' acc' rs2
        | .error e => .error e := by
  induction rs1 with
  | nil => intro s acc; simp [parseRows]
  | cons r rs ih =>
    intro s acc
    cases r with
    | arr toks =>
      simp only [List.cons_append, parseRows]
      cases parseTokens unit { s with cur_x := 0 } acc toks with
      | ok p =>
        obtain ⟨s1, acc1⟩ := p
        exact ih { s1 with cur_y := s1.cur_y + 1 } acc1
      | error e => rfl
    | str v => simp [parseRows]
    | num v => simp [parseRows]
    | bool b => simp [parseRows]
    | null => simp [parseRows]
    | obj fields => simp [parseRows]

lemma parseTokens_ok_length (unit : ℝ) (ts : List JVal) :
    ∀ (s : PState) (acc : List KleKey) (s' : PState) (ks : List KleKey),
      parseTokens unit s acc ts = .ok (s', ks) →
        ks.length = acc.length + ts.countP (fun t => isScalarTok t) := by
  induction ts with
  | nil =>
    intro s acc s' ks h
    simp only [parseTokens, Except.ok.injEq, Prod.mk.injEq] at h
    simp [← h.2]
  | cons t ts ih =>
    intro s acc s' ks h
    cases t with
    | obj fields =>
      simp only [parseTokens, parseToken] at h
      rw [List.countP_cons_of_neg _ _ (by simp [isScalarTok])]
      exact ih _ _ _ _ h
    | str v =>
      simp only [parseTokens, parseToken] at h
      rw [List.countP_cons_of_pos _ _ (by simp [isScalarTok])]
      have := ih _ _ _ _ h
      simp at this
      omega
    | num v =>
      simp only [parseTokens, parseToken] at h
      rw [List.countP_cons_of_pos _ _ (by simp [isScalarTok])]
      have := ih _ _ _ _ h
      simp at this
      omega
    | bool b =>
      simp only [parseTokens, parseToken] at h
      rw [List.countP_cons_of_pos _ _ (by simp [isScalarTok])]
      have := ih _ _ _ _ h
      simp at this
      omega
    | null => simp [parseTokens, parseToken] at h
    | arr items => simp [parseTokens, parseToken] at h

lemma parseRows_ok_length (unit : ℝ) (rows : List JVal) :
    ∀ (s : PState) (acc : List KleKey) (s' : PState) (ks : List KleKey),
      parseRows unit s acc rows = .ok (s', ks) →
        ks.length = acc.length + scalarCount rows := by
  induction rows with
  | nil =>
    intro s acc s' ks h
    simp only [parseRows, Except.ok.injEq, Prod.mk.injEq] at h
    simp [scalarCount, ← h.2]
  | cons r rs ih =>
    intro s acc s' ks h
    cases r with
    | arr toks =>
      simp only [parseRows] at h
      cases ht : parseTokens unit { s with cur_x := 0 } acc toks with
      | ok p =>
        rw [ht] at h
        have h1 := parseTokens_ok_length unit toks _ _ _ _ ht
        have h2 := ih _ _ _ _ h
        have h3 : scalarCount (JVal.arr toks :: rs) =
            toks.countP (fun t => isScalarTok t) + scalarCount rs := by
          simp [scalarCount, scalarCountRow]
        rw [h3]
        omega
      | error e => rw [ht] at h; exact absurd h (by simp)
    | str v => simp [parseRows] at h
    | num v => simp [parseRows] at h
    | bool b => simp [parseRows] at h
    | null => simp [parseRows] at h
    | obj fields => simp [parseRows] at h

lemma parseTokens_ok_iff (unit : ℝ) (ts : List JVal) :
    ∀ (s : PState) (acc : List KleKey),
      (∃ r, parseTokens unit s acc ts = .ok r) ↔ ts.all goodToken = true := by
  induction ts with
  | nil => intro s acc; simp [parseTokens]
  | cons t ts ih =>
    intro s acc
    cases t with
    | obj fields =>
      simp only [parseTokens, parseToken, List.all_cons, goodToken]
      rw [ih]
      simp
    | str v =>
      simp only [parseTokens, parseToken, List.all_cons, goodToken, isScalarTok]
      rw [ih]
      simp
    | num v =>
      simp only [parseTokens, parseToken, List.all_cons, goodToken, isScalarTok]
      rw [ih]
      simp
    | bool b =>
      simp only [parseTokens, parseToken, List.all_cons, goodToken, isScalarTok]
      rw [ih]
      simp
    | null => simp [parseTokens, parseToken, goodToken, isScalarTok]
    | arr items => simp [parseTokens, parseToken, goodToken, isScalarTok]

lemma parseRows_ok_iff (unit : ℝ) (rows : List JVal) :
    ∀ (s : PState) (acc : List KleKey),
      (∃ r, parseRows unit s acc rows = .ok r) ↔ rowsWF rows = true := by
  induction rows with
  | nil => intro s acc; simp [parseRows, rowsWF]
  | cons r rs ih =>
    intro s acc
    cases r with
    | arr toks =>
      simp only [parseRows]
      cases ht : parseTokens unit { s with cur_x := 0 } acc toks with
      | ok p =>
        obtain ⟨s1, acc1⟩ := p
        have hg : toks.all goodToken = true :=
          (parseTokens_ok_iff unit toks _ acc).mp ⟨(s1, acc1), ht⟩
        simp only [rowsWF, List.all_cons, rowWF, hg, Bool.true_and]
        rw [← rowsWF]
        exact ih _ acc1
      | error e =>
        have hg : ¬ toks.all goodToken = true := by
          intro hc
          obtain ⟨r0, hr0⟩ := (parseTokens_ok_iff unit toks { s with cur_x := 0 } acc).mpr hc
          rw [ht] at hr0
          exact absurd hr0 (by simp)
        simp only [rowsWF, List.all_cons, rowWF]
        simp [hg]
    | str v => simp [parseRows, rowsWF, rowWF]
    | num v => simp [parseRows, rowsWF, rowWF]
    | bool b => simp [parseRows, rowsWF, rowWF]
    | null => simp [parseRows, rowsWF, rowWF]
    | obj fields => simp [parseRows, rowsWF, rowWF]

lemma parseTokens_error_kind (unit : ℝ) (ts : List JVal) :
    ∀ (s : PState) (acc : List KleKey) (e : KleError),
      parseTokens unit s acc ts = .error e → ∃ m, e = .malformedLayout m := by
  induction ts with
  | nil => intro s acc e h; simp [parseTokens] at h
  | cons t ts ih =>
    intro s acc e h
    cases t with
    | obj fields => exact ih _ _ _ (by simpa [parseTokens, parseToken] using h)
    | str v => exact ih _ _ _ (by simpa [parseTokens, parseToken] using h)
    | num v => exact ih _ _ _ (by simpa [parseTokens, parseToken] using h)
    | bool b => exact ih _ _ _ (by simpa [parseTokens, parseToken] using h)
    | null =>
      simp only [parseTokens, parseToken, Except.error.injEq] at h
      exact ⟨_, h.symm⟩
    | arr items =>
      simp only [parseTokens, parseToken, Except.error.injEq] at h
      exact ⟨_, h.symm⟩

lemma parseRows_error_kind (unit : ℝ) (rows : List JVal) :
    ∀ (s : PState) (acc : List KleKey) (e : KleError),
      parseRows unit s acc rows = .error e → ∃ m, e = .malformedLayout m := by
  induction rows with
  | nil => intro s acc e h; simp [parseRows] at h
  | cons r rs ih =>
    intro s acc e h
    cases r with
    | arr toks =>
      simp only [parseRows] at h
      cases ht : parseTokens unit { s with cur_x := 0 } acc toks with
      | ok p =>
        obtain ⟨s1, acc1⟩ := p
        rw [ht] at h
        exact ih _ _ _ h
      | error e' =>
        rw [ht] at h
        simp only [Except.error.injEq] at h
        obtain ⟨m, hm⟩ := parseTokens_error_kind unit toks _ _ _ ht
        exact ⟨m, h ▸ hm⟩
    | str v => simp only [parseRows, Except.error.injEq] at h; exact ⟨_, h.symm⟩
    | num v => simp only [parseRows, Except.error.injEq] at h; exact ⟨_, h.symm⟩
    | bool b => simp only [parseRows, Except.error.injEq] at h; exact ⟨_, h.symm⟩
    | null => simp only [parseRows, Except.error.injEq] at h; exact ⟨_, h.symm⟩
    | obj fields => simp only [parseRows, Except.error.injEq] at h; exact ⟨_, h.symm⟩

lemma foldl_min_le (l : List ℝ) : ∀ (x : ℝ), l.foldl min x ≤ x := by
  induction l with
  | nil => intro x; simp
  | cons a l ih =>
    intro x
    simp only [List.foldl_cons]
    exact le_trans (ih (min x a)) (min_le_left x a)

lemma foldl_min_le_mem (l : List ℝ) : ∀ (x a : ℝ), a ∈ l → l.foldl min x ≤ a := by
  induction l with
  | nil => intro x a ha; simp at ha
  | cons b l ih =>
    intro x a ha
    rcases List.mem_cons.mp ha with h | h
    · subst h
      exact le_trans (foldl_min_le l (min x a)) (min_le_right x a)
    · exact ih (min x b) a h

lemma foldl_min_mem (l : List ℝ) : ∀ (x : ℝ), l.foldl min x = x ∨ l.foldl min x ∈ l := by
  induction l with
  | nil => intro x; left; simp
  | cons a l ih =>
    intro x
    simp only [List.foldl_cons]
    rcases ih (min x a) with h | h
    · rcases min_cases x a with ⟨hm, _⟩ | ⟨hm, _⟩
      · left; rw [h, hm]
      · right; rw [h, hm]; exact List.mem_cons_self a l
    · right; exact List.mem_cons_of_mem a h

lemma foldl_max_ge (l : List ℝ) : ∀ (x : ℝ), x ≤ l.foldl max x := by
  induction l with
  | nil => intro x; simp
  | cons a l ih =>
    intro x
    simp only [List.foldl_cons]
    exact le_trans (le_max_left x a) (ih (max x a))

lemma foldl_max_ge_mem (l : List ℝ) : ∀ (x a : ℝ), a ∈ l → a ≤ l.foldl max x := by
  induction l with
  | nil => intro x a ha; simp at ha
  | cons b l ih =>
    intro x a ha
    rcases List.mem_cons.mp ha with h | h
    · subst h
      exact le_trans (le_max_right x a) (foldl_max_ge l (max x a))
    · exact ih (max x b) a h

lemma foldl_max_mem (l : List ℝ) : ∀ (x : ℝ), l.foldl max x = x ∨ l.foldl max x ∈ l := by
  induction l with
  | nil => intro x; left; simp
  | cons a l ih =>
    intro x
    simp only [List.foldl_cons]
    rcases ih (max x a) with h | h
    · rcases max_cases x a with ⟨hm, _⟩ | ⟨hm, _⟩
      · left; rw [h, hm]
      · right; rw [h, hm]; exact List.mem_cons_self a l
    · right; exact List.mem_cons_of_mem a h

lemma listMin_le (l : List ℝ) (hl : l ≠ []) : ∀ a ∈ l, listMin l ≤ a := by
  cases l with
  | nil => exact absurd rfl hl
  | cons x xs =>
    intro a ha
    rcases List.mem_cons.mp ha with h | h
    · subst h; exact foldl_min_le xs a
    · exact foldl_min_le_mem xs x a h

lemma listMin_mem (l : List ℝ) (hl : l ≠ []) : listMin l ∈ l := by
  cases l with
  | nil => exact absurd rfl hl
  | cons x xs =>
    rcases foldl_min_mem xs x with h | h
    · rw [listMin, h]; exact List.mem_cons_self x xs
    · exact List.mem_cons_of_mem x (by rw [listMin]; exact h)

lemma listMax_ge (l : List ℝ) (hl : l ≠ []) : ∀ a ∈ l, a ≤ listMax l := by
  cases l with
  | nil => exact absurd rfl hl
  | cons x xs =>
    intro a ha
    rcases List.mem_cons.mp ha with h | h
    · subst h; exact foldl_max_ge xs a
    · exact foldl_max_ge_mem xs x a h

lemma listMax_mem (l : List ℝ) (hl : l ≠ []) : listMax l ∈ l := by
  cases l with
  | nil => exact absurd rfl hl
  | cons x xs =>
    rcases foldl_max_mem xs x with h | h
    · rw [listMax, h]; exact List.mem_cons_self x xs
    · exact List.mem_cons_of_mem x (by rw [listMax]; exact h)

lemma flush_key_eq_spec (unit : ℝ) (s : PState) :
    flush_key unit s =
      (specEmittedKey unit s, { s with cur_x := s.cur_x + s.cur_w, cur_w := 1, cur_h := 1 }) := by
  rw [flush_key, specEmittedKey, rot2d_eq_specRot]

lemma applyMod_r90 :
    applyMod [("r", 90), ("rx", 0), ("ry", 0)]
        { cur_x := 0, cur_y := 0, cur_w := 1, cur_h := 1, rot_deg := 0, rot_x := 0, rot_y := 0 } =
      { cur_x := 0, cur_y := 0, cur_w := 1, cur_h := 1, rot_deg := 90, rot_x := 0, rot_y := 0 } := by
  rfl

/-- C1: for every scalar token (string, number, or boolean), the emitted
placement has grid-unit center `(cursor.x + pending_w/2, cursor.y +
pending_h/2)` rotated about the rotation-group origin by the
rotation-group angle under the standard 2-D rotation (the zero-angle fast
path being an exact no-op), unrotated size `(pending_w, pending_h)`, and
`angle_deg` equal to the group angle; afterwards the cursor advances by
the pending width and the pending size resets to `(1, 1)`.  A modifier
`{r: 90, rx: 0, ry: 0}` followed by a scalar at grid position `(1, 0)`
yields grid center `(-0.5, 1.5)` before unit conversion. -/
theorem C1_scalar_token_flush (unit : ℝ) (s : PState) (acc : List KleKey) :
    (∀ lbl, parseToken unit s acc (.str lbl) =
      .ok ({ s with cur_x := s.cur_x + s.cur_w, cur_w := 1, cur_h := 1 },
           acc ++ [specEmittedKey unit s]))
    ∧ (∀ v, parseToken unit s acc (.num v) =
      .ok ({ s with cur_x := s.cur_x + s.cur_w, cur_w := 1, cur_h := 1 },
           acc ++ [specEmittedKey unit s]))
    ∧ (∀ b, parseToken unit s acc (.bool b) =
      .ok ({ s with cur_x := s.cur_x + s.cur_w, cur_w := 1, cur_h := 1 },
           acc ++ [specEmittedKey unit s]))
    ∧ (∀ x y ox oy : ℝ, rot2d x y 0 ox oy = (x, y))
    ∧ rot2d (3 / 2) (1 / 2) 90 0 0 = (-(1 / 2), 3 / 2)
    ∧ parse_kle 1 (some (.arr [.arr
        [.obj [("r", 90), ("rx", 0), ("ry", 0)], .str "a", .str "b"]])) =
      .ok [{ center := (-(1 / 2), -(1 / 2)), size := (1, 1), angle_deg := 90 },
           { center := (-(1 / 2), -(3 / 2)), size := (1, 1), angle_deg := 90 }] := by
  refine ⟨?_, ?_, ?_, ?_, ?_, ?_⟩
  · intro lbl; rw [parseToken, flush_key_eq_spec]
  · intro v; rw [parseToken, flush_key_eq_spec]
  · intro b; rw [parseToken, flush_key_eq_spec]
  · intro x y ox oy; exact rot2d_zero x y ox oy
  · rw [rot2d_ninety]; norm_num
  · simp only [parse_kle, parseRows, parseTokens, parseToken, initState, applyMod_r90]
    simp only [flush_key, rot2d_ninety]
    norm_num [KleKey.mk.injEq, Prod.mk.injEq]

/-- C4: the grid-to-linear conversion scales center x, scales and negates
center y, scales both size components with no sign flip, and passes
`angle_deg` through unchanged; input `[["a","b"]]` at scale 19.05 yields
centers `(9.525, -9.525)` and `(28.575, -9.525)`, both of size
`(19.05, 19.05)` and angle 0. -/
theorem C4_unit_conversion (unit : ℝ) (s : PState) :
    (flush_key unit s).1 =
      unitConvertSpec unit
        (rot2d (s.cur_x + s.cur_w / 2) (s.cur_y + s.cur_h / 2) s.rot_deg s.rot_x s.rot_y)
        (s.cur_w, s.cur_h) s.rot_deg
    ∧ parse_kle 19.05 (some (.arr [.arr [.str "a", .str "b"]])) =
      .ok [{ center := (9.525, -9.525), size := (19.05, 19.05), angle_deg := 0 },
           { center := (28.575, -9.525), size := (19.05, 19.05), angle_deg := 0 }] := by
  constructor
  · rw [flush_key, unitConvertSpec]
    simp [KleKey.mk.injEq, Prod.mk.injEq, neg_mul]
  · simp only [parse_kle, parseRows, parseTokens, parseToken, initState]
    simp only [flush_key, rot2d_zero]
    norm_num [KleKey.mk.injEq, Prod.mk.injEq]

/-- C10: a boolean token is accepted as a scalar and emits a placement
(Python `bool` passes the `isinstance(..., int)` check), a `null` token
raises the unsupported-token error, and the accepted scalar kinds are
exactly strings, numbers, and booleans. -/
theorem C10_bool_scalar_null_error (unit : ℝ) (s : PState) (acc : List KleKey) :
    (∀ b, parseToken unit s acc (.bool b) =
        .ok ((flush_key unit s).2, acc ++ [(flush_key unit s).1]))
    ∧ parseToken unit s acc .null = .error (.malformedLayout "Unsupported KLE token type")
    ∧ (∀ t, (∃ s' k, parseToken unit s acc t = .ok (s', acc ++ [k])) ↔ isScalarTok t = true) := by
  refine ⟨fun b => rfl, rfl, fun t => ?_⟩
  cases t with
  | str v => simp [parseToken, isScalarTok]
  | num v => simp [parseToken, isScalarTok]
  | bool b => simp [parseToken, isScalarTok]
  | null => simp [parseToken, isScalarTok]
  | arr items => simp [parseToken, isScalarTok]
  | obj fields =>
    simp only [parseToken, isScalarTok, Except.ok.injEq, Prod.mk.injEq]
    constructor
    · rintro ⟨s', k, -, hk⟩
      exact absurd (congrArg List.length hk) (by simp)
    · intro hc; exact absurd hc (by simp)

theorem C10_witness :
    parseToken 1 initState [] (.bool true) =
      .ok ((flush_key 1 initState).2, [] ++ [(flush_key 1 initState).1]) :=
  (C10_bool_scalar_null_error 1 initState []).1 true

/-- C5: with `longer_u = max(size.x, size.y) / unit`, a placement gets a
stabilizer cutout iff `longer_u` is strictly greater than the threshold
(equality means no cutout), and the cutout's axis rotation is 0 when
width is at least height and 90 otherwise. -/
theorem C5_stabilizer_rule (k : KleKey) (unit thr : ℝ) (h : 0 < unit) :
    ((stabDecision k unit thr).isSome = true ↔ thr < max k.size.1 k.size.2 / unit)
    ∧ (max k.size.1 k.size.2 / unit = thr → stabDecision k unit thr = none)
    ∧ (thr < max k.size.1 k.size.2 / unit →
        stabDecision k unit thr = some (if k.size.2 ≤ k.size.1 then 0 else 90)) := by
  have hmax : max (k.size.1 / unit) (k.size.2 / unit) = max k.size.1 k.size.2 / unit :=
    max_div_div_right (le_of_lt h) k.size.1 k.size.2
  have hif : (if k.size.1 / unit ≥ k.size.2 / unit then (0 : ℝ) else 90)
      = if k.size.2 ≤ k.size.1 then (0 : ℝ) else 90 := by
    by_cases hb : k.size.2 ≤ k.size.1
    · rw [if_pos ((div_le_div_iff_of_pos_right h).mpr hb), if_pos hb]
    · rw [if_neg (fun hc => hb ((div_le_div_iff_of_pos_right h).mp hc)), if_neg hb]
  rw [stabDecision, hmax, hif]
  by_cases hc : max k.size.1 k.size.2 / unit > thr
  · rw [if_pos hc]
    refine ⟨by simp [hc], fun he => absurd hc (by rw [he]; exact lt_irrefl thr), fun _ => rfl⟩
  · rw [if_neg hc]
    exact ⟨by simp [hc], fun _ => rfl, fun hlt => absurd hlt hc⟩

theorem C5_witness :
    stabDecision { center := (0, 0), size := (42.8625, 19.05), angle_deg := 0 } 19.05 2 =
      some 0 := by
  have h := (C5_stabilizer_rule { center := (0, 0), size := (42.8625, 19.05), angle_deg := 0 }
      19.05 2 (by norm_num)).2.2
    (by rw [max_eq_left (by norm_num : (19.05 : ℝ) ≤ 42.8625)]; norm_num)
  rw [h, if_pos (by norm_num)]

/-- C6: the plate code composes `Location((0,0,0),(0,0,axis_rot)) *
(Location((lx,ly,0)) * template)`, i.e. it translates the cutout to the
recentered coordinates first and then rotates the placed sketch about the
GLOBAL origin; the spec expects the template rotated about its own origin
first and then placed at `(lx, ly)`.  At `axis_rot = 90` with recentered
coordinates `(10, 0)` the template origin lands at `(0, 10)` instead of
`(10, 0)`; the two compositions agree only in the 0-degree orientation. -/
theorem C6_cutout_rotated_about_global_origin :
    codeStabPoint 90 10 0 0 0 = (0, 10)
    ∧ specStabPoint 90 10 0 0 0 = (10, 0)
    ∧ codeStabPoint 90 10 0 0 0 ≠ specStabPoint 90 10 0 0 0
    ∧ (∀ lx ly px py : ℝ, codeStabPoint 0 lx ly px py = specStabPoint 0 lx ly px py) := by
  have h1 : codeStabPoint 90 10 0 0 0 = (0, 10) := by
    rw [codeStabPoint, rot2d_ninety]; norm_num
  have h2 : specStabPoint 90 10 0 0 0 = (10, 0) := by
    simp only [specStabPoint, rot2d_ninety]; norm_num
  refine ⟨h1, h2, ?_, ?_⟩
  · rw [h1, h2]; norm_num [Prod.mk.injEq]
  · intro lx ly px py
    simp [codeStabPoint, specStabPoint, rot2d_zero]

lemma parseTokens_acc_front (unit : ℝ) (ts : List JVal) (s : PState) (acc : List KleKey)
    (s' : PState) (ks : List KleKey) (h : parseTokens unit s acc ts = .ok (s', ks)) :
    ∃ t, ks = acc ++ t := by
  rw [parseTokens_acc] at h
  cases h2 : parseTokens unit s [] ts with
  | ok q => rw [h2] at h; simp [Except.map] at h; exact ⟨q.2, h.2.symm⟩
  | error e => rw [h2] at h; simp [Except.map] at h

lemma parseRows_acc_front (unit : ℝ) (rs : List JVal) (s : PState) (acc : List KleKey)
    (s' : PState) (ks : List KleKey) (h : parseRows unit s acc rs = .ok (s', ks)) :
    ∃ t, ks = acc ++ t := by
  rw [parseRows_acc] at h
  cases h2 : parseRows unit s [] rs with
  | ok q => rw [h2] at h; simp [Except.map] at h; exact ⟨q.2, h.2.symm⟩
  | error e => rw [h2] at h; simp [Except.map] at h

lemma parseTokens_front (unit : ℝ) (ts1 ts2 : List JVal) (s : PState) (acc : List KleKey)
    (s' : PState) (ks : List KleKey)
    (h : parseTokens unit s acc (ts1 ++ ts2) = .ok (s', ks)) :
    ∃ s1 ks1 tail, parseTokens unit s acc ts1 = .ok (s1, ks1) ∧ ks = ks1 ++ tail := by
  rw [parseTokens_append] at h
  cases h1 : parseTokens unit s acc ts1 with
  | ok p =>
    obtain ⟨sa, ka⟩ := p
    rw [h1] at h
    obtain ⟨t, ht⟩ := parseTokens_acc_front unit ts2 sa ka s' ks h
    exact ⟨sa, ka, t, rfl, ht⟩
  | error e => rw [h1] at h; exact absurd h (by simp)

lemma parseRows_front (unit : ℝ) (rs1 rs2 : List JVal) (s : PState) (acc : List KleKey)
    (s' : PState) (ks : List KleKey)
    (h : parseRows unit s acc (rs1 ++ rs2) = .ok (s', ks)) :
    ∃ s1 ks1 tail, parseRows unit s acc rs1 = .ok (s1, ks1) ∧ ks = ks1 ++ tail := by
  rw [parseRows_append] at h
  cases h1 : parseRows unit s acc rs1 with
  | ok p =>
    obtain ⟨sa, ka⟩ := p
    rw [h1] at h
    obtain ⟨t, ht⟩ := parseRows_acc_front unit rs2 sa ka s' ks h
    exact ⟨sa, ka, t, rfl, ht⟩
  | error e => rw [h1] at h; exact absurd h (by simp)

/-- C2: for every document all of whose tokens are modifier records or
accepted scalars, interpretation succeeds and emits exactly one placement
per scalar token, in encounter order: the first `n` rows contribute
exactly the first `scalarCount (rows.take n)` placements, and within any
row the first `m` tokens contribute exactly the following
`countP isScalarTok (toks.take m)` placements. -/
theorem C2_one_placement_per_scalar (unit : ℝ) (rows : List JVal)
    (h : rowsWF rows = true) :
    ∃ ks, parse_kle unit (some (.arr rows)) = .ok ks
      ∧ ks.length = scalarCount rows
      ∧ (∀ n, ∃ ksn, parse_kle unit (some (.arr (rows.take n))) = .ok ksn
          ∧ ksn = ks.take (scalarCount (rows.take n)))
      ∧ (∀ pre toks post m, rows = pre ++ .arr toks :: post →
          ∃ ksm, parse_kle unit (some (.arr (pre ++ [.arr (toks.take m)]))) = .ok ksm
            ∧ ksm = ks.take
                (scalarCount pre + (toks.take m).countP (fun t => isScalarTok t))) := by
  obtain ⟨⟨sF, ksF⟩, hF⟩ := (parseRows_ok_iff unit rows initState []).mpr h
  have hlenF : ksF.length = scalarCount rows := by
    simpa using parseRows_ok_length unit rows initState [] sF ksF hF
  refine ⟨ksF, by simp [parse_kle, hF], hlenF, ?_, ?_⟩
  · intro n
    have hF2 : parseRows unit initState [] (rows.take n ++ rows.drop n) = .ok (sF, ksF) := by
      rw [List.take_append_drop]; exact hF
    obtain ⟨s1, ks1, tail, h1, htail⟩ := parseRows_front unit _ _ _ _ _ _ hF2
    have hlen1 : ks1.length = scalarCount (rows.take n) := by
      simpa using parseRows_ok_length unit _ _ _ _ _ h1
    refine ⟨ks1, by simp [parse_kle, h1], ?_⟩
    rw [htail, ← hlen1, List.take_left]
  · intro pre toks post m hrows
    subst hrows
    obtain ⟨s1, ks1, tail1, h1, htail1⟩ := parseRows_front unit pre _ _ _ _ _ hF
    have hlen1 : ks1.length = scalarCount pre := by
      simpa using parseRows_ok_length unit _ _ _ _ _ h1
    have hF2 : parseRows unit s1 ks1 (JVal.arr toks :: post) = .ok (sF, ksF) := by
      have h0 := hF
      rw [parseRows_append, h1] at h0
      exact h0
    have htoksWF : toks.all goodToken = true := by
      have hh := h
      simp only [rowsWF, List.all_append, List.all_cons, rowWF, Bool.and_eq_true] at hh
      exact hh.2.1
    obtain ⟨⟨sR, accR⟩, hR⟩ :=
      (parseTokens_ok_iff unit toks { s1 with cur_x := 0 } ks1).mpr htoksWF
    have hF3 : parseRows unit { sR with cur_y := sR.cur_y + 1 } accR post = .ok (sF, ksF) := by
      have h0 := hF2
      simp only [parseRows, hR] at h0
      exact h0
    obtain ⟨tail2, htail2⟩ := parseRows_acc_front unit post _ _ _ _ hF3
    have hRm : parseTokens unit { s1 with cur_x := 0 } ks1 (toks.take m ++ toks.drop m) =
        .ok (sR, accR) := by
      rw [List.take_append_drop]; exact hR
    obtain ⟨sm, ksm, tailm, hm, htailm⟩ := parseTokens_front unit _ _ _ _ _ _ hRm
    have hlenm : ksm.length
        = scalarCount pre + (toks.take m).countP (fun t => isScalarTok t) := by
      have h0 := parseTokens_ok_length unit (toks.take m) _ _ _ _ hm
      rw [h0, hlen1]
    have hdoc : parseRows unit initState [] (pre ++ [JVal.arr (toks.take m)]) =
        .ok ({ sm with cur_y := sm.cur_y + 1 }, ksm) := by
      rw [parseRows_append, h1]
      simp only [parseRows, hm]
    refine ⟨ksm, by simp [parse_kle, hdoc], ?_⟩
    have hksF : ksF = ksm ++ (tailm ++ tail2) := by
      rw [htail2, htailm, List.append_assoc]
    rw [hksF, ← hlenm, List.take_left]

theorem C2_witness :
    (parse_kle 1 (some (.arr [.arr [.str "a", .str "b"]]))).map List.length = .ok 2 := by
  obtain ⟨ks, hok, hlen, -, -⟩ :=
    C2_one_placement_per_scalar 1 [JVal.arr [JVal.str "a", JVal.str "b"]] rfl
  rw [hok]
  simp only [Except.map, hlen]
  rfl

lemma applyMod_w2 :
    applyMod [("w", 2)]
        { cur_x := 0, cur_y := 0, cur_w := 1, cur_h := 1, rot_deg := 0, rot_x := 0, rot_y := 0 } =
      { cur_x := 0, cur_y := 0, cur_w := 2, cur_h := 1, rot_deg := 0, rot_x := 0, rot_y := 0 } := by
  rfl

/-- C3: at a row boundary only the horizontal cursor component is reset
(to 0); the vertical cursor, the pending size, and the rotation group all
persist from the end of one row into the next, the vertical cursor
advancing by exactly 1 after the row's tokens are exhausted; hence a
`{w: 2}` modifier ending one row sizes the first scalar of the next row. -/
theorem C3_row_boundary_state (unit : ℝ) (s : PState) (acc : List KleKey)
    (toks rest : List JVal) (s1 : PState) (ks1 : List KleKey)
    (h : parseTokens unit { s with cur_x := 0 } acc toks = .ok (s1, ks1)) :
    parseRows unit s acc (.arr toks :: rest)
      = parseRows unit { s1 with cur_y := s1.cur_y + 1 } ks1 rest
    ∧ ({ s with cur_x := 0 } : PState).cur_y = s.cur_y
    ∧ ({ s with cur_x := 0 } : PState).cur_w = s.cur_w
    ∧ ({ s with cur_x := 0 } : PState).cur_h = s.cur_h
    ∧ ({ s with cur_x := 0 } : PState).rot_deg = s.rot_deg
    ∧ ({ s with cur_x := 0 } : PState).rot_x = s.rot_x
    ∧ ({ s with cur_x := 0 } : PState).rot_y = s.rot_y
    ∧ ({ s1 with cur_y := s1.cur_y + 1 } : PState).cur_x = s1.cur_x
    ∧ ({ s1 with cur_y := s1.cur_y + 1 } : PState).cur_y = s1.cur_y + 1
    ∧ ({ s1 with cur_y := s1.cur_y + 1 } : PState).cur_w = s1.cur_w
    ∧ ({ s1 with cur_y := s1.cur_y + 1 } : PState).cur_h = s1.cur_h
    ∧ ({ s1 with cur_y := s1.cur_y + 1 } : PState).rot_deg = s1.rot_deg
    ∧ ({ s1 with cur_y := s1.cur_y + 1 } : PState).rot_x = s1.rot_x
    ∧ ({ s1 with cur_y := s1.cur_y + 1 } : PState).rot_y = s1.rot_y
    ∧ parse_kle 1 (some (.arr [.arr [.obj [("w", 2)]], .arr [.str "a"]])) =
        .ok [{ center := (1, -(3 / 2)), size := (2, 1), angle_deg := 0 }] := by
  refine ⟨?_, rfl, rfl, rfl, rfl, rfl, rfl, rfl, rfl, rfl, rfl, rfl, rfl, rfl, ?_⟩
  · simp only [parseRows, h]
  · simp only [parse_kle, parseRows, parseTokens, parseToken, initState, applyMod_w2]
    simp only [flush_key, rot2d_zero]
    norm_num [KleKey.mk.injEq, Prod.mk.injEq]

theorem C3_witness :
    parseRows 1 initState [] [.arr []]
      = parseRows 1 { initState with cur_y := initState.cur_y + 1 } [] []
    ∧ parse_kle 1 (some (.arr [.arr [.obj [("w", 2)]], .arr [.str "a"]])) =
        .ok [{ center := (1, -(3 / 2)), size := (2, 1), angle_deg := 0 }] := by
  have h := C3_row_boundary_state 1 initState [] [] [] initState [] rfl
  exact ⟨h.1, h.2.2.2.2.2.2.2.2.2.2.2.2.2.2⟩

/-- C8: interpretation fails exactly when the text does not parse, the top
level is not a list, some top-level element is not a list, or some token
is neither a modifier record nor an accepted scalar; every interpreter
error is a MalformedLayout (never NoKeys); and a modifier record's effect
depends only on its recognised fields, so unrecognised fields are
silently ignored and never raise. -/
theorem C8_malformed_layout_exactly (unit : ℝ) (inp : Option JVal) :
    ((∃ ks, parse_kle unit inp = .ok ks) ↔ docOk inp = true)
    ∧ (∀ e, parse_kle unit inp = .error e → ∃ m, e = KleError.malformedLayout m)
    ∧ (∀ (f1 f2 : List (String × ℝ)) (s : PState),
        (∀ key ∈ ["x", "y", "w", "h", "r", "rx", "ry"], findField f1 key = findField f2 key) →
        applyMod f1 s = applyMod f2 s) := by
  refine ⟨?_, ?_, ?_⟩
  · cases inp with
    | none => simp [parse_kle, docOk]
    | some v =>
      cases v with
      | arr rows =>
        simp only [docOk]
        cases hr : parseRows unit initState [] rows with
        | ok p =>
          obtain ⟨sF, ksF⟩ := p
          constructor
          · intro _
            exact (parseRows_ok_iff unit rows initState []).mp ⟨(sF, ksF), hr⟩
          · intro _
            exact ⟨ksF, by simp [parse_kle, hr]⟩
        | error e =>
          constructor
          · rintro ⟨ks, hks⟩
            rw [parse_kle, hr] at hks
            exact absurd hks (by simp)
          · intro hwf
            obtain ⟨r0, hr0⟩ := (parseRows_ok_iff unit rows initState []).mpr hwf
            rw [hr0] at hr
            exact absurd hr (by simp)
      | str v => simp [parse_kle, docOk]
      | num v => simp [parse_kle, docOk]
      | bool b => simp [parse_kle, docOk]
      | null => simp [parse_kle, docOk]
      | obj fields => simp [parse_kle, docOk]
  · intro e he
    cases inp with
    | none =>
      simp only [parse_kle, Except.error.injEq] at he
      exact ⟨_, he.symm⟩
    | some v =>
      cases v with
      | arr rows =>
        rw [parse_kle] at he
        cases hr : parseRows unit initState [] rows with
        | ok p => rw [hr] at he; exact absurd he (by simp)
        | error e' =>
          rw [hr] at he
          simp only [Except.error.injEq] at he
          obtain ⟨m, hm⟩ := parseRows_error_kind unit rows initState [] e' hr
          exact ⟨m, he ▸ hm⟩
      | str v =>
        simp only [parse_kle, Except.error.injEq] at he
        exact ⟨_, he.symm⟩
      | num v =>
        simp only [parse_kle, Except.error.injEq] at he
        exact ⟨_, he.symm⟩
      | bool b =>
        simp only [parse_kle, Except.error.injEq] at he
        exact ⟨_, he.symm⟩
      | null =>
        simp only [parse_kle, Except.error.injEq] at he
        exact ⟨_, he.symm⟩
      | obj fields =>
        simp only [parse_kle, Except.error.injEq] at he
        exact ⟨_, he.symm⟩
  · intro f1 f2 s hkeys
    have hx : findField f1 "x" = findField f2 "x" := hkeys "x" (by simp)
    have hy : findField f1 "y" = findField f2 "y" := hkeys "y" (by simp)
    have hw : findField f1 "w" = findField f2 "w" := hkeys "w" (by simp)
    have hh : findField f1 "h" = findField f2 "h" := hkeys "h" (by simp)
    have hrd : findField f1 "r" = findField f2 "r" := hkeys "r" (by simp)
    have hrx : findField f1 "rx" = findField f2 "rx" := hkeys "rx" (by simp)
    have hry : findField f1 "ry" = findField f2 "ry" := hkeys "ry" (by simp)
    simp only [applyMod, hx, hy, hw, hh, hrd, hrx, hry]

theorem C8_witness :
    applyMod [("foo", 5)] initState = applyMod [] initState := by
  refine (C8_malformed_layout_exactly 1 none).2.2 [("foo", 5)] [] initState ?_
  intro key hk
  fin_cases hk <;> rfl

/-- C9: the empty document interprets successfully to an empty placement
list; the bounds computation on zero placements fails with NoKeys; and any
successfully interpreted input with zero scalar tokens yields the empty
placement list, on which requesting bounds raises NoKeys. -/
theorem C9_no_keys_on_empty (unit : ℝ) :
    parse_kle unit (some (.arr [])) = .ok []
    ∧ keys_bounds [] = .error .noKeys
    ∧ (∀ (inp : Option JVal) (ks : List KleKey),
        parse_kle unit inp = .ok ks → docScalarCount inp = 0 →
          ks = [] ∧ keys_bounds ks = .error .noKeys) := by
  have hkb : keys_bounds [] = .error .noKeys := by
    simp [keys_bounds, allRotCorners]
  refine ⟨by simp [parse_kle, parseRows], hkb, ?_⟩
  intro inp ks hok hcount
  have hnil : ks = [] := by
    cases inp with
    | none => exact absurd hok (by simp [parse_kle])
    | some v =>
      cases v with
      | arr rows =>
        simp only [parse_kle] at hok
        cases hr : parseRows unit initState [] rows with
        | ok p =>
          obtain ⟨sF, ksF⟩ := p
          rw [hr] at hok
          simp only [Except.ok.injEq] at hok
          have hlen := parseRows_ok_length unit rows initState [] sF ksF hr
          simp only [docScalarCount] at hcount
          have hzero : ksF.length = 0 := by simp [hlen, hcount]
          rw [← hok]
          exact List.length_eq_zero.mp hzero
        | error e => rw [hr] at hok; exact absurd hok (by simp)
      | str v => exact absurd hok (by simp [parse_kle])
      | num v => exact absurd hok (by simp [parse_kle])
      | bool b => exact absurd hok (by simp [parse_kle])
      | null => exact absurd hok (by simp [parse_kle])
      | obj fields => exact absurd hok (by simp [parse_kle])
  subst hnil
  exact ⟨rfl, hkb⟩

theorem C9_witness :
    ([] : List KleKey) = [] ∧ keys_bounds [] = .error .noKeys :=
  (C9_no_keys_on_empty 1).2.2 (some (.arr [])) [] (C9_no_keys_on_empty 1).1 rfl

/-- C7: for a non-empty placement list the bounds computation returns
exactly the componentwise minimum and maximum over the four corners of
each placement (center plus-or-minus half size), each corner rotated about
its own placement's center by that placement's angle: every rotated corner
lies inside the returned box, and each of the four bounds is attained by
some rotated corner, so no strictly smaller axis-aligned box on any side
contains them all. -/
theorem C7_bounds_min_max (k0 : KleKey) (keys : List KleKey)
    (mnx mny mxx mxy : ℝ)
    (h : keys_bounds (k0 :: keys) = .ok (mnx, mny, mxx, mxy)) :
    (∀ p ∈ allRotCorners (k0 :: keys),
        mnx ≤ p.1 ∧ p.1 ≤ mxx ∧ mny ≤ p.2 ∧ p.2 ≤ mxy)
    ∧ (∃ p ∈ allRotCorners (k0 :: keys), p.1 = mnx)
    ∧ (∃ p ∈ allRotCorners (k0 :: keys), p.2 = mny)
    ∧ (∃ p ∈ allRotCorners (k0 :: keys), p.1 = mxx)
    ∧ (∃ p ∈ allRotCorners (k0 :: keys), p.2 = mxy) := by
  have hne : allRotCorners (k0 :: keys) ≠ [] := by
    simp [allRotCorners, keyCorners]
  rw [keys_bounds, if_neg hne] at h
  simp only [Except.ok.injEq, Prod.mk.injEq] at h
  obtain ⟨h1, h2, h3, h4⟩ := h
  have hxne : (allRotCorners (k0 :: keys)).map Prod.fst ≠ [] := by
    simpa using hne
  have hyne : (allRotCorners (k0 :: keys)).map Prod.snd ≠ [] := by
    simpa using hne
  refine ⟨?_, ?_, ?_, ?_, ?_⟩
  · intro p hp
    refine ⟨?_, ?_, ?_, ?_⟩
    · rw [← h1]; exact listMin_le _ hxne p.1 (List.mem_map_of_mem Prod.fst hp)
    · rw [← h3]; exact listMax_ge _ hxne p.1 (List.mem_map_of_mem Prod.fst hp)
    · rw [← h2]; exact listMin_le _ hyne p.2 (List.mem_map_of_mem Prod.snd hp)
    · rw [← h4]; exact listMax_ge _ hyne p.2 (List.mem_map_of_mem Prod.snd hp)
  · obtain ⟨p, hp, hpe⟩ := List.mem_map.mp (listMin_mem _ hxne)
    exact ⟨p, hp, by rw [hpe, h1]⟩
  · obtain ⟨p, hp, hpe⟩ := List.mem_map.mp (listMin_mem _ hyne)
    exact ⟨p, hp, by rw [hpe, h2]⟩
  · obtain ⟨p, hp, hpe⟩ := List.mem_map.mp (listMax_mem _ hxne)
    exact ⟨p, hp, by rw [hpe, h3]⟩
  · obtain ⟨p, hp, hpe⟩ := List.mem_map.mp (listMax_mem _ hyne)
    exact ⟨p, hp, by rw [hpe, h4]⟩

theorem C7_witness :
    keys_bounds [{ center := (5, 7), size := (0, 0), angle_deg := 0 }] = .ok (5, 7, 5, 7)
    ∧ ∃ p ∈ allRotCorners [{ center := (5, 7), size := (0, 0), angle_deg := 0 }], p.1 = 5 := by
  have hne : allRotCorners [{ center := (5, 7), size := (0, 0), angle_deg := (0 : ℝ) }] ≠ [] := by
    simp [allRotCorners, keyCorners]
  have hok : keys_bounds [{ center := (5, 7), size := (0, 0), angle_deg := (0 : ℝ) }] =
      .ok (5, 7, 5, 7) := by
    rw [keys_bounds, if_neg hne]
    simp only [allRotCorners, keyCorners]
    norm_num [rotCorner, rot2d_zero, listMin, listMax, min_self, max_self]
  exact ⟨hok, (C7_bounds_min_max _ [] _ _ _ _ hok).2.1⟩
